import Mathlib

/-!
# EduEase Note-Content Extractor: a shallow embedding

This file embeds the response-parsing layer of the EduEase repository
(`backend/processing.py` and `frontend/app.py`) in Lean 4 and proves the
frozen claims about it.

The three extractors under study are built on Python `re` searches with a
small, fixed set of regex constructs: literal text (optionally under
`re.IGNORECASE`), greedy whitespace runs, lazy any-character gaps, a lazy
capture group, one optional group and one lookahead.  We embed each search
by an explicit scanning function that enumerates candidate positions in
exactly the order the backtracking engine explores them (leftmost start
first; a greedy quantifier from its longest run downwards; a lazy
quantifier from its shortest expansion upwards), returning the first
success.  Documents are `List Char`; the `String` wrappers at the end keep
the source signatures.
-/

set_option autoImplicit false
set_option maxRecDepth 8192

namespace EduEase

/-- Python's `\s` class for ASCII text: space, tab, newline, carriage
return, vertical tab and form feed. -/
def isPyWs (c : Char) : Bool := " \t\n\r\x0b\x0c".toList.contains c

/-- Character comparison under `re.IGNORECASE` (ASCII case folding). -/
def charEqCI (a b : Char) : Bool := a.toLower == b.toLower

/-- Pointwise comparison of two character lists with a given character
equality; false when the lengths differ. -/
def listEqBy (f : Char → Char → Bool) : List Char → List Char → Bool
  | [], [] => true
  | a :: as, b :: bs => f a b && listEqBy f as bs
  | _, _ => false

/-- `matchesAt ci doc pat i`: the literal `pat` matches `doc` at position
`i`, case-insensitively when `ci` is true.  This is the semantics of a
literal inside an `re` pattern at a fixed input position. -/
def matchesAt (ci : Bool) (doc pat : List Char) (i : Nat) : Bool :=
  listEqBy (if ci then charEqCI else fun a b => a == b) ((doc.drop i).take pat.length) pat

/-- Length of the maximal whitespace run of `doc` starting at `i`: the
number of characters a greedy `\s*` consumes from position `i`. -/
def wsRun (doc : List Char) (i : Nat) : Nat := ((doc.drop i).takeWhile isPyWs).length

/-- The characters of `doc` in positions `[a, b)`. -/
def slice (doc : List Char) (a b : Nat) : List Char := (doc.drop a).take (b - a)

/-- All positions `q ≥ lo` of `doc` where the literal `pat` matches,
in increasing order: the successive candidates a lazy gap `[\s\S]*?pat`
offers to the rest of the pattern. -/
def occList (ci : Bool) (doc pat : List Char) (lo : Nat) : List Nat :=
  (List.range doc.length).filter fun q => decide (lo ≤ q) && matchesAt ci doc pat q

/-- Python's `str.strip()` on ASCII text. -/
def pyStrip (s : List Char) : List Char :=
  ((s.dropWhile isPyWs).reverse.dropWhile isPyWs).reverse

/-- Closing code fence. -/
def ticks : List Char := "```".toList

/-- Semantics of the fence tail `\s*([\s\S]+?)\s*```` starting at
position `s0` (just after the opening fence tag), in backtracking order:
the leading greedy `\s*` tries its longest run `a` first; the lazy group
grows from one character up; the trailing greedy `\s*` tries its longest
run first.  Returns the captured group of the first success. -/
def tailMatch (doc : List Char) (s0 : Nat) : Option (List Char) :=
  ((List.range (wsRun doc s0 + 1)).reverse).findSome? fun a =>
    (List.range (doc.length - (s0 + a))).findSome? fun g1 =>
      ((List.range (wsRun doc (s0 + a + (g1 + 1)) + 1)).reverse).findSome? fun b =>
        if matchesAt false doc ticks (s0 + a + (g1 + 1) + b)
        then some (slice doc (s0 + a) (s0 + a + (g1 + 1))) else none

/-- Semantics of `FENCETAG\s*([\s\S]+?)\s*```` searched from position
`lo`: the lazy gap before the tag offers each occurrence of the tag in
order; the first occurrence whose tail matches wins.  Returns the
occurrence position and the captured group. -/
def fenceSearch (ci : Bool) (doc pat : List Char) (lo : Nat) : Option (Nat × List Char) :=
  (occList ci doc pat lo).findSome? fun q =>
    (tailMatch doc (q + pat.length)).map fun g => (q, g)

/-- Opening fence tag of the diagram block. -/
def dotFence : List Char := "```dot".toList

/-- The fixed default styling string of `parse_graphviz`
(`processing.py` line 119, `app.py` line 23). -/
def styling : List Char :=
  ("bgcolor=\"transparent\"; node [style=\"filled\", shape=\"box\", fillcolor=\"#AEC6CF\", fontcolor=\"#121212\", color=\"#FFFFFF\", penwidth=2, fontname=\"Inter\"]; edge [color=\"#FFFFFF\", fontname=\"Inter\"];").toList

/-- The opening brace character. -/
def lbrace : Char := '\x7b'

/-- Python's `s.replace(c, r, 1)` for a one-character needle: replace the
first occurrence of `c` in `s` by `r`; leave `s` unchanged when `c` does
not occur. -/
def replaceFirst (s : List Char) (c : Char) (r : List Char) : List Char :=
  match s with
  | [] => []
  | x :: xs => if x == c then r ++ xs else x :: replaceFirst xs c r

/-- The graph-declaration keyword tested by `startswith`. -/
def digraphKw : List Char := "digraph".toList

/-- Python's `f-string` wrapper `f'digraph G \x7b\x7b {content} \x7d\x7d'`:
`"digraph G \x7b " + content + " \x7d"`. -/
def wrapDigraph (content : List Char) : List Char :=
  "digraph G \x7b ".toList ++ content ++ " \x7d".toList

/-- Normalization step of `parse_graphviz` (`processing.py` lines
117-118): strip the captured group, and wrap it as
`digraph G \x7b ... \x7d` unless the (re-)stripped content starts with
`digraph`. -/
def dotNormalize (g : List Char) : List Char :=
  if digraphKw.isPrefixOf (pyStrip (pyStrip g)) then pyStrip g
  else wrapDigraph (pyStrip g)

/-- `parse_graphviz` (`processing.py` lines 113-120, `app.py` lines
18-24) on a character list: search `` ```dot\s*([\s\S]+?)\s*``` ``
(case-sensitively: that pattern is compiled without flags), normalize
the captured group, and replace the first `\x7b` with `\x7b ` followed
by the styling string. -/
def parse_graphviz_core (doc : List Char) : Option (List Char) :=
  match fenceSearch false doc dotFence 0 with
  | none => none
  | some (_, g) => some (replaceFirst (dotNormalize g) lbrace (lbrace :: ' ' :: styling))

/-- `parse_graphviz` with the source signature. -/
def parse_graphviz (notes_text : String) : Option String :=
  (parse_graphviz_core notes_text.toList).map fun l => String.mk l

/-! ## A model of `json.loads`

`parse_quiz_from_json` feeds the captured fence content to `json.loads`
and catches `json.JSONDecodeError`.  We model the decoder by a fueled
recursive-descent parser over the JSON value grammar.  Simplifications
against CPython's decoder, none of which is exercised by the concrete
inputs used below: numbers are integers only (no fraction or exponent),
string escapes cover the single-character escapes but not `\uXXXX`, and
no leading-zero check is made. -/

/-- JSON values. -/
inductive Json where
  | null
  | bool (b : Bool)
  | num (n : Int)
  | str (s : List Char)
  | arr (elts : List Json)
  | obj (members : List (List Char × Json))

/-- JSON inter-token whitespace: space, tab, newline, carriage return. -/
def jsonWs (c : Char) : Bool := " \t\n\r".toList.contains c

/-- Skip JSON whitespace. -/
def skipJWs (cs : List Char) : List Char := cs.dropWhile jsonWs

/-- The escape table of JSON strings: source character paired with the
decoded character (`\uXXXX` escapes are outside the model). -/
def jsonEscapePairs : List (Char × Char) :=
  [('"', '"'), ('\\', '\\'), ('/', '/'), ('b', '\x08'), ('f', '\x0c'),
   ('n', '\n'), ('r', '\r'), ('t', '\t')]

/-- Decode a single-character string escape via the table. -/
def escChar (e : Char) : Option Char :=
  (jsonEscapePairs.find? fun p => p.1 == e).map fun p => p.2

/-- Parse the body of a JSON string after the opening quote; returns the
decoded characters and the remaining input after the closing quote. -/
def parseJStringBody : List Char → Option (List Char × List Char)
  | [] => none
  | '"' :: rest => some ([], rest)
  | '\\' :: e :: rest =>
    (escChar e).bind fun c =>
      (parseJStringBody rest).map fun sr => (c :: sr.1, sr.2)
  | c :: rest =>
    if c.toNat < 32 then none
    else (parseJStringBody rest).map fun sr => (c :: sr.1, sr.2)

/-- Consume a run of decimal digits, accumulating their value. -/
def digitsAux (acc : Nat) : List Char → Nat × List Char
  | [] => (acc, [])
  | c :: rest =>
    if c.isDigit then digitsAux (acc * 10 + (c.toNat - 48)) rest else (acc, c :: rest)

mutual

/-- Parse one JSON value; `fuel` bounds the nesting and item count. -/
def parseJVal : Nat → List Char → Option (Json × List Char)
  | 0, _ => none
  | fuel + 1, cs =>
    match skipJWs cs with
    | 'n' :: 'u' :: 'l' :: 'l' :: rest => some (.null, rest)
    | 't' :: 'r' :: 'u' :: 'e' :: rest => some (.bool true, rest)
    | 'f' :: 'a' :: 'l' :: 's' :: 'e' :: rest => some (.bool false, rest)
    | '"' :: rest => (parseJStringBody rest).map fun sr => (.str sr.1, sr.2)
    | '[' :: rest =>
      (match skipJWs rest with
       | ']' :: r2 => some (.arr [], r2)
       | _ => (parseJItems fuel rest).map fun xr => (.arr xr.1, xr.2))
    | '\x7b' :: rest =>
      (match skipJWs rest with
       | '\x7d' :: r2 => some (.obj [], r2)
       | _ => (parseJMembers fuel rest).map fun xr => (.obj xr.1, xr.2))
    | '-' :: c :: rest =>
      if c.isDigit then
        let dr := digitsAux (c.toNat - 48) rest
        some (.num (-(dr.1 : Int)), dr.2)
      else none
    | c :: rest =>
      if c.isDigit then
        let dr := digitsAux (c.toNat - 48) rest
        some (.num (dr.1 : Int), dr.2)
      else none
    | [] => none

/-- Parse the comma-separated items of a non-empty JSON array, up to and
including the closing bracket. -/
def parseJItems : Nat → List Char → Option (List Json × List Char)
  | 0, _ => none
  | fuel + 1, cs =>
    (parseJVal fuel cs).bind fun vr =>
      match skipJWs vr.2 with
      | ',' :: r2 => (parseJItems fuel r2).map fun xr => (vr.1 :: xr.1, xr.2)
      | ']' :: r2 => some ([vr.1], r2)
      | _ => none

/-- Parse the members of a non-empty JSON object, up to and including the
closing brace. -/
def parseJMembers : Nat → List Char → Option (List (List Char × Json) × List Char)
  | 0, _ => none
  | fuel + 1, cs =>
    match skipJWs cs with
    | '"' :: rest =>
      (parseJStringBody rest).bind fun kr =>
        match skipJWs kr.2 with
        | ':' :: r2 =>
          (parseJVal fuel r2).bind fun vr =>
            match skipJWs vr.2 with
            | ',' :: r4 => (parseJMembers fuel r4).map fun xr => ((kr.1, vr.1) :: xr.1, xr.2)
            | '\x7d' :: r4 => some ([(kr.1, vr.1)], r4)
            | _ => none
        | _ => none
    | _ => none

end

/-- `json.loads` on a character list: parse one value and require only
whitespace to remain; `none` models a raised `json.JSONDecodeError`. -/
def jsonParse (s : List Char) : Option Json :=
  (parseJVal (s.length + 1) s).bind fun vr =>
    if skipJWs vr.2 == [] then some vr.1 else none

/-! ## `parse_quiz_from_json` -/

/-- Header marker. -/
def hh : List Char := "##".toList

/-- Opening fence tag of the quiz block (matched case-insensitively:
the quiz pattern is compiled with `re.IGNORECASE`). -/
def jsonFence : List Char := "```json".toList

/-- Semantics of `##\s*KEY` at position `i` for a literal `KEY`:
`##`, then a greedy whitespace run (longest first, as the engine
backtracks), then the key case-insensitively.  Returns the position just
after the key.  For the keys admitted by `quizKeySafe` (first character
alphanumeric) at most one run length can succeed, so returning the first
candidate is exact. -/
def quizHeaderEnd? (doc key : List Char) (i : Nat) : Option Nat :=
  if matchesAt false doc hh i then
    ((List.range (wsRun doc (i + 2) + 1)).reverse).findSome? fun a =>
      if matchesAt true doc key (i + 2 + a) then some (i + 2 + a + key.length) else none
  else none

/-- Semantics of `re.search` for
`##\s*KEY[\s\S]*?```json\s*([\s\S]+?)\s*```` under `re.IGNORECASE`:
the leftmost start at which a header match is followed by a successful
json-fence match; returns the captured fence content. -/
def quizCapture? (doc key : List Char) : Option (List Char) :=
  (List.range doc.length).findSome? fun i =>
    (quizHeaderEnd? doc key i).bind fun j =>
      (fenceSearch true doc jsonFence j).map fun qg => qg.2

/-- Key characters matched literally by the interpolated pattern. -/
def charKeySafe (c : Char) : Bool := c.isAlphanum || c == ' '

/-- Keys that the f-string interpolation of `parse_quiz_from_json` turns
into a plain literal inside the pattern: nonempty, alphanumeric or space
characters only, first character alphanumeric. -/
def quizKeySafe (key : List Char) : Bool :=
  match key with
  | [] => false
  | c :: _ => c.isAlphanum && key.all charKeySafe

/-- The pattern string built by `parse_quiz_from_json`:
`f'##\\s*\x7bkey\x7d[\\s\\S]*?```json\\s*([\\s\\S]+?)\\s*```'` — the key
is interpolated with no escaping. -/
def quizPatternOf (key : List Char) : List Char :=
  "##\\s*".toList ++ key ++ "[\\s\\S]*?```json\\s*([\\s\\S]+?)\\s*```".toList

/-- Scan a pattern string for balanced groups and character classes,
honouring backslash escapes.  `re.compile` raises `re.error` on any
pattern this scan rejects (an unmatched parenthesis or bracket or a
trailing backslash); the scan is a sound under-approximation of
`re.error`, which suffices here because the fixed pattern text around the
key is well formed. -/
def reBalancedAux : List Char → Bool → Bool → Nat → Bool
  | [], esc, inCls, d => !esc && !inCls && d == 0
  | _ :: rest, true, inCls, d => reBalancedAux rest false inCls d
  | c :: rest, false, true, d =>
    if c == '\\' then reBalancedAux rest true true d
    else if c == ']' then reBalancedAux rest false false d
    else reBalancedAux rest false true d
  | c :: rest, false, false, d =>
    if c == '\\' then reBalancedAux rest true false d
    else if c == '[' then reBalancedAux rest false true d
    else if c == '(' then reBalancedAux rest false false (d + 1)
    else if c == ')' then decide (d ≠ 0) && reBalancedAux rest false false (d - 1)
    else reBalancedAux rest false false d

/-- Whether a pattern string passes the balance scan. -/
def reBalanced (pat : List Char) : Bool := reBalancedAux pat false false 0

/-- Outcome of calling a Python function: a returned value, an escaped
exception, or a regime the embedding does not model. -/
inductive PyOutcome (α : Type) where
  | ok (v : α)
  | raises
  | unmodeled
deriving DecidableEq, Repr

/-- Whether a call returned a value. -/
def PyOutcome.isOk {α : Type} : PyOutcome α → Bool
  | .ok _ => true
  | .raises => false
  | .unmodeled => false

/-- `parse_quiz_from_json` (`processing.py` lines 122-130) on character
lists.  For a `quizKeySafe` key the interpolated pattern matches the key
literally, and the function returns the decoded fence content, or an
empty list when the header-and-fence search fails (`line 126`) or the
content fails to decode (`lines 128-130`, the caught
`json.JSONDecodeError`).  For other keys the unescaped interpolation
changes the pattern itself: when the balance scan rejects the pattern,
`re.compile` raises `re.error` and the exception escapes the function,
which has no handler around `line 124` — modeled by `.raises`; remaining
keys (valid patterns with metacharacters) are outside this embedding,
modeled by `.unmodeled`. -/
def parse_quiz_from_json_core (doc key : List Char) : PyOutcome Json :=
  if quizKeySafe key then
    .ok (match quizCapture? doc key with
         | none => Json.arr []
         | some g =>
           match jsonParse g with
           | some v => v
           | none => Json.arr [])
  else if reBalanced (quizPatternOf key) then .unmodeled
  else .raises

/-- `parse_quiz_from_json` with the source signature. -/
def parse_quiz_from_json (notes_text key : String) : PyOutcome Json :=
  parse_quiz_from_json_core notes_text.toList key.toList

/-- `parse_quiz_from_json` with the `logging` state made explicit: the
function appends one warning line exactly when the fence content fails to
decode (`line 129`), and touches no other state. -/
def parse_quiz_from_json_run (notes_text key : String) (log : List String) :
    PyOutcome Json × List String :=
  if quizKeySafe key.toList then
    match quizCapture? notes_text.toList key.toList with
    | none => (.ok (Json.arr []), log)
    | some g =>
      match jsonParse g with
      | some v => (.ok v, log)
      | none => (.ok (Json.arr []), log ++ ["Failed to parse JSON for key: " ++ key])
  else if reBalanced (quizPatternOf key.toList) then (.unmodeled, log)
  else (.raises, log)

/-- `parse_graphviz` with the `logging` state made explicit: the function
performs no logging at all. -/
def parse_graphviz_run (notes_text : String) (log : List String) :
    Option String × List String :=
  (parse_graphviz notes_text, log)

/-! ## The summary-span extractor -/

/-- The qualifier of the summary header, matched case-insensitively. -/
def detailedKw : List Char := "detailed".toList

/-- The summary header word, matched case-insensitively. -/
def summaryKw : List Char := "summary".toList

/-- Semantics of `##\s*(Detailed\s)?Summary` at position `i`: the
candidate positions just after `Summary`, in backtracking order (greedy
whitespace run longest first; for each run, the optional group present
before absent). -/
def summaryHeaderEnds (doc : List Char) (i : Nat) : List Nat :=
  if matchesAt false doc hh i then
    ((List.range (wsRun doc (i + 2) + 1)).reverse).flatMap fun a =>
      let p := i + 2 + a
      (if matchesAt true doc detailedKw p
          && ((doc.get? (p + 8)).map isPyWs).getD false
          && matchesAt true doc summaryKw (p + 9)
       then [p + 16] else [])
      ++ (if matchesAt true doc summaryKw p then [p + 7] else [])
  else []

/-- Positions `m ≥ lo` of `doc` holding a newline, in increasing order:
the candidates the lazy `.*?` before the literal `\n` offers (the pattern
is compiled with `re.DOTALL`, so the gap crosses lines). -/
def nlPositions (doc : List Char) (lo : Nat) : List Nat :=
  (List.range doc.length).filter fun m => decide (lo ≤ m) && (doc.get? m == some '\n')

/-- Semantics of `\s*.*?\n(.*?)(?=##)` from position `j` (just after
`Summary`): greedy whitespace run longest first, then each newline
position in order, then the lazy capture group ends at the first
following `##` (a zero-width lookahead).  Returns the group. -/
def summaryTail (doc : List Char) (j : Nat) : Option (List Char) :=
  ((List.range (wsRun doc j + 1)).reverse).findSome? fun a2 =>
    (nlPositions doc (j + a2)).findSome? fun m =>
      ((occList false doc hh (m + 1)).head?).map fun t => slice doc (m + 1) t

/-- Semantics of `re.search` for
`##\s*(Detailed\s)?Summary\s*.*?\n(.*?)(?=##)` under
`re.DOTALL | re.IGNORECASE`: leftmost start whose header candidate list
yields a successful tail; returns capture group 2. -/
def summaryMatch? (doc : List Char) : Option (List Char) :=
  (List.range doc.length).findSome? fun i =>
    (summaryHeaderEnds doc i).findSome? (summaryTail doc)

/-- The span-capture portion shared by the two `get_topic_from_summary`
variants (`processing.py` lines 136-140, `app.py` lines 42-44): the
stripped capture group 2, or `none` when the search fails or the stripped
group is empty. -/
def summary_span_core (doc : List Char) : Option (List Char) :=
  match summaryMatch? doc with
  | none => none
  | some g => let t := pyStrip g; if t == [] then none else some t

/-- Python's `str.split()` with no separator: whitespace-delimited words,
empty words dropped. -/
def pySplitWs : List Char → List (List Char)
  | [] => []
  | c :: rest =>
    if isPyWs c then pySplitWs rest
    else (c :: rest.takeWhile (fun x => !isPyWs x)) ::
         pySplitWs (rest.dropWhile (fun x => !isPyWs x))
termination_by s => s.length
decreasing_by
  · simp only [List.length_cons]; omega
  · simp only [List.length_cons]
    exact Nat.lt_succ_of_le (List.dropWhile_suffix _).length_le

/-- `get_topic_from_summary` of the frontend (`app.py` lines 41-47): the
captured span's first ten whitespace-delimited words, joined by single
spaces; `none` when the span capture fails. -/
def get_topic_from_summary (notes_text : String) : Option String :=
  (summary_span_core notes_text.toList).map fun t =>
    String.mk (List.intercalate [' '] ((pySplitWs t).take 10))

/-! ## Structural lemmas about the scanning primitives -/

theorem listEqBy_length {f : Char → Char → Bool} {a b : List Char}
    (h : listEqBy f a b = true) : a.length = b.length := by
  induction a generalizing b with
  | nil =>
    cases b with
    | nil => rfl
    | cons y ys => simp [listEqBy] at h
  | cons x xs ih =>
    cases b with
    | nil => simp [listEqBy] at h
    | cons y ys =>
      simp only [listEqBy, Bool.and_eq_true] at h
      simp [ih h.2]

theorem matchesAt_lt_length {ci : Bool} {doc pat : List Char} {i : Nat}
    (h : matchesAt ci doc pat i = true) (hp : 0 < pat.length) : i < doc.length := by
  unfold matchesAt at h
  have hl := listEqBy_length h
  simp only [List.length_take, List.length_drop] at hl
  have := Nat.min_le_right pat.length (doc.length - i)
  omega

theorem head?_mem {α : Type} {l : List α} {a : α} (h : l.head? = some a) : a ∈ l := by
  cases l <;> simp_all

theorem head?_min {l : List Nat} (hp : l.Pairwise (· < ·)) {a b : Nat}
    (ha : l.head? = some a) (hb : b ∈ l) : a ≤ b := by
  cases l with
  | nil => simp at ha
  | cons x xs =>
    simp only [List.head?_cons, Option.some.injEq] at ha
    subst ha
    rcases List.mem_cons.mp hb with rfl | hmem
    · exact Nat.le_refl _
    · exact Nat.le_of_lt ((List.pairwise_cons.mp hp).1 _ hmem)

theorem mem_occList {ci : Bool} {doc pat : List Char} {lo q : Nat} :
    q ∈ occList ci doc pat lo ↔
      q < doc.length ∧ lo ≤ q ∧ matchesAt ci doc pat q = true := by
  simp [occList, List.mem_filter, List.mem_range, and_assoc]

theorem occList_pairwise (ci : Bool) (doc pat : List Char) (lo : Nat) :
    (occList ci doc pat lo).Pairwise (· < ·) :=
  List.Pairwise.filter _ (List.pairwise_lt_range _)

theorem tailMatch_close {doc : List Char} {s0 : Nat} {g : List Char}
    (h : tailMatch doc s0 = some g) :
    ∃ r, s0 + 1 ≤ r ∧ matchesAt false doc ticks r = true := by
  unfold tailMatch at h
  obtain ⟨a, -, h⟩ := List.exists_of_findSome?_eq_some h
  obtain ⟨g1, -, h⟩ := List.exists_of_findSome?_eq_some h
  obtain ⟨b, -, h⟩ := List.exists_of_findSome?_eq_some h
  by_cases hc : matchesAt false doc ticks (s0 + a + (g1 + 1) + b) = true
  · exact ⟨s0 + a + (g1 + 1) + b, by omega, hc⟩
  · simp [hc] at h

theorem tailMatch_ne_none {doc : List Char} {s0 r : Nat} (hr : s0 + 1 ≤ r)
    (hm : matchesAt false doc ticks r = true) : tailMatch doc s0 ≠ none := by
  intro h
  unfold tailMatch at h
  rw [List.findSome?_eq_none_iff] at h
  have h0 := h 0 (by simp)
  rw [List.findSome?_eq_none_iff] at h0
  have hrlen : r < doc.length := matchesAt_lt_length hm (by decide)
  have h1 := h0 (r - s0 - 1) (by rw [List.mem_range]; omega)
  rw [List.findSome?_eq_none_iff] at h1
  have h2 := h1 0 (by simp)
  have he : s0 + 0 + (r - s0 - 1 + 1) + 0 = r := by omega
  rw [he] at h2
  rw [hm] at h2
  simp at h2

theorem fenceSearch_first {ci : Bool} {doc pat : List Char} {lo q : Nat} {g : List Char}
    (h : fenceSearch ci doc pat lo = some (q, g)) :
    (occList ci doc pat lo).head? = some q ∧ tailMatch doc (q + pat.length) = some g := by
  unfold fenceSearch at h
  rw [List.findSome?_eq_some_iff] at h
  obtain ⟨l1, a, l2, hsplit, hfa, hnone⟩ := h
  rw [Option.map_eq_some'] at hfa
  obtain ⟨g', hg', heq⟩ := hfa
  have haq : a = q := congrArg Prod.fst heq
  have hgg : g' = g := congrArg Prod.snd heq
  subst haq
  subst hgg
  refine ⟨?_, hg'⟩
  cases l1 with
  | nil => rw [hsplit]; rfl
  | cons x xs =>
    exfalso
    have hxnone := hnone x (List.mem_cons_self _ _)
    rw [Option.map_eq_none'] at hxnone
    have hpw := occList_pairwise ci doc pat lo
    rw [hsplit] at hpw
    have hxq : x < a := by
      rcases List.pairwise_append.mp hpw with ⟨-, -, hrel⟩
      exact hrel x (List.mem_cons_self _ _) a (List.mem_cons_self _ _)
    obtain ⟨r, hr, hmr⟩ := tailMatch_close hg'
    exact tailMatch_ne_none (show x + pat.length + 1 ≤ r by omega) hmr hxnone

theorem quizHeaderEnd?_none_of_ge {doc key : List Char} {i : Nat}
    (h : doc.length ≤ i) : quizHeaderEnd? doc key i = none := by
  unfold quizHeaderEnd?
  have hm : matchesAt false doc hh i = false := by
    cases hmm : matchesAt false doc hh i
    · rfl
    · exact absurd (matchesAt_lt_length hmm (by decide)) (by omega)
  simp [hm]

theorem replaceFirst_of_not_mem {s : List Char} {c : Char} {r : List Char}
    (h : c ∉ s) : replaceFirst s c r = s := by
  induction s with
  | nil => rfl
  | cons x xs ih =>
    simp only [List.mem_cons, not_or] at h
    unfold replaceFirst
    have hxc : ¬ (x == c) = true := by
      simp only [beq_iff_eq]
      exact fun he => h.1 he.symm
    rw [if_neg hxc, ih h.2]

theorem replaceFirst_append {P : List Char} {c : Char} {S r : List Char}
    (h : c ∉ P) : replaceFirst (P ++ c :: S) c r = P ++ r ++ S := by
  induction P with
  | nil => simp [replaceFirst]
  | cons x xs ih =>
    simp only [List.mem_cons, not_or] at h
    have hxc : ¬ (x == c) = true := by
      simp only [beq_iff_eq]
      exact fun he => h.1 he.symm
    simp only [List.cons_append, replaceFirst, if_neg hxc, List.append_eq]
    rw [ih h.2]

theorem lbrace_mem_wrapDigraph (c : List Char) : lbrace ∈ wrapDigraph c := by
  unfold wrapDigraph
  refine List.mem_append_left _ (List.mem_append_left _ ?_)
  decide

/-! ## Case-insensitivity congruences for the quiz key -/

theorem listEqBy_ci_congr {p1 p2 : List Char}
    (h : p1.map Char.toLower = p2.map Char.toLower) :
    ∀ (s : List Char), listEqBy charEqCI s p1 = listEqBy charEqCI s p2 := by
  induction p1 generalizing p2 with
  | nil =>
    cases p2 with
    | nil => exact fun _ => rfl
    | cons b bs => simp at h
  | cons a as ih =>
    cases p2 with
    | nil => simp at h
    | cons b bs =>
      simp only [List.map_cons, List.cons.injEq] at h
      intro s
      cases s with
      | nil => rfl
      | cons c cs =>
        simp only [listEqBy]
        have h1 : charEqCI c a = charEqCI c b := by
          unfold charEqCI
          rw [h.1]
        rw [h1, ih h.2 cs]

theorem matchesAt_ci_congr {p1 p2 : List Char}
    (h : p1.map Char.toLower = p2.map Char.toLower) (doc : List Char) (i : Nat) :
    matchesAt true doc p1 i = matchesAt true doc p2 i := by
  have hlen : p1.length = p2.length := by simpa using congrArg List.length h
  unfold matchesAt
  rw [hlen]
  exact listEqBy_ci_congr h _

theorem quizHeaderEnd?_ci_congr {k1 k2 : List Char}
    (h : k1.map Char.toLower = k2.map Char.toLower) (doc : List Char) (i : Nat) :
    quizHeaderEnd? doc k1 i = quizHeaderEnd? doc k2 i := by
  have hlen : k1.length = k2.length := by simpa using congrArg List.length h
  unfold quizHeaderEnd?
  simp only [matchesAt_ci_congr h, hlen]

theorem quizCapture?_ci_congr {k1 k2 : List Char}
    (h : k1.map Char.toLower = k2.map Char.toLower) (doc : List Char) :
    quizCapture? doc k1 = quizCapture? doc k2 := by
  unfold quizCapture?
  simp only [quizHeaderEnd?_ci_congr h]

/-! ## The claims -/

/-- Claim C2, amended: for every document and every label made of
letters, digits and spaces (beginning with a letter or digit — in
particular the labels `MCQ Quiz` and `Flashcard Review` the backend
passes), `parse_quiz_from_json` returns normally; no exception escapes.
The amendment restricts the labels: the claim as stated, over all label
strings, is refuted by `claimC2cex` below, because the label is
interpolated unescaped into the pattern handed to `re.compile`. -/
theorem claimC2 (notes_text key : String)
    (hsafe : quizKeySafe key.toList = true) :
    (parse_quiz_from_json notes_text key).isOk = true := by
  unfold parse_quiz_from_json parse_quiz_from_json_core
  rw [if_pos hsafe]
  rfl

/-- Claim C2, counterexample: with the label `(` the pattern built at
`processing.py` line 124 has an unmatched parenthesis, `re.compile`
raises `re.error`, and the exception escapes `parse_quiz_from_json`
(the only handler, at line 128, catches `json.JSONDecodeError` around
`json.loads` alone).  So not every (document, label) call returns
normally. -/
theorem claimC2cex :
    parse_quiz_from_json "## MCQ Quiz\n```json\n[1]\n```" "(" = PyOutcome.raises := by
  rfl

/-- Claim C2, witness at a concrete input. -/
theorem claimC2witness :
    quizKeySafe ("MCQ Quiz".toList) = true ∧
    (parse_quiz_from_json "## MCQ Quiz\n```json\n[1]\n```" "MCQ Quiz").isOk = true :=
  ⟨by decide, claimC2 "## MCQ Quiz\n```json\n[1]\n```" "MCQ Quiz" (by decide)⟩

/-- Claim C3: for every document on which the header-and-fence search of
`parse_quiz_from_json` succeeds but the captured fence content fails to
decode as JSON, the function returns an empty sequence; the
`json.JSONDecodeError` is caught (`processing.py` lines 128-130) and no
parse exception reaches the caller. -/
theorem claimC3 (notes_text key : String) (g : List Char)
    (hsafe : quizKeySafe key.toList = true)
    (hcap : quizCapture? notes_text.toList key.toList = some g)
    (hjson : jsonParse g = none) :
    parse_quiz_from_json notes_text key = PyOutcome.ok (Json.arr []) := by
  unfold parse_quiz_from_json parse_quiz_from_json_core
  rw [if_pos hsafe]
  simp only [hcap, hjson]

/-- Claim C3, witness at a concrete input with an invalid JSON fence. -/
theorem claimC3witness :
    quizKeySafe ("Quiz".toList) = true ∧
    quizCapture? ("## Quiz\n```json\nnot json\n```".toList) ("Quiz".toList) =
      some ("not json".toList) ∧
    jsonParse ("not json".toList) = none ∧
    parse_quiz_from_json "## Quiz\n```json\nnot json\n```" "Quiz" =
      PyOutcome.ok (Json.arr []) :=
  ⟨by decide, by decide, by rfl,
   claimC3 "## Quiz\n```json\nnot json\n```" "Quiz" ("not json".toList)
     (by decide) (by decide) (by rfl)⟩

/-- Claim C4: for every document with no header matching the label, or
with matching headers but no json fence matching after any of them,
`parse_quiz_from_json` returns an empty sequence rather than signalling
an error (`processing.py` line 126). -/
theorem claimC4 (notes_text key : String)
    (hsafe : quizKeySafe key.toList = true)
    (h : (∀ i, i < notes_text.toList.length →
            quizHeaderEnd? notes_text.toList key.toList i = none) ∨
         (∀ i, i < notes_text.toList.length → ∀ j,
            quizHeaderEnd? notes_text.toList key.toList i = some j →
            fenceSearch true notes_text.toList jsonFence j = none)) :
    parse_quiz_from_json notes_text key = PyOutcome.ok (Json.arr []) := by
  have hcap : quizCapture? notes_text.toList key.toList = none := by
    unfold quizCapture?
    rw [List.findSome?_eq_none_iff]
    intro i hi
    rw [List.mem_range] at hi
    rcases h with h | h
    · rw [h i hi]
      rfl
    · cases hj : quizHeaderEnd? notes_text.toList key.toList i with
      | none => rfl
      | some j =>
        show (fenceSearch true notes_text.toList jsonFence j).map (fun qg => qg.2) = none
        rw [h i hi j hj]
        rfl
  unfold parse_quiz_from_json parse_quiz_from_json_core
  rw [if_pos hsafe]
  simp only [hcap]

/-- Claim C4, witness at a concrete headerless document. -/
theorem claimC4witness :
    quizKeySafe ("MCQ Quiz".toList) = true ∧
    (∀ i, i < ("plain prose".toList).length →
      quizHeaderEnd? ("plain prose".toList) ("MCQ Quiz".toList) i = none) ∧
    parse_quiz_from_json "plain prose" "MCQ Quiz" = PyOutcome.ok (Json.arr []) :=
  ⟨by decide, by decide,
   claimC4 "plain prose" "MCQ Quiz" (by decide) (Or.inl (by decide))⟩

/-- Claim C5: for every document on which the header-and-fence search of
`parse_quiz_from_json` succeeds and the captured content decodes as a
JSON array, the function returns exactly the decoded array — no
element-level validation, filtering or transformation (`processing.py`
line 127 returns `json.loads` verbatim). -/
theorem claimC5 (notes_text key : String) (g : List Char) (a : List Json)
    (hsafe : quizKeySafe key.toList = true)
    (hcap : quizCapture? notes_text.toList key.toList = some g)
    (hjson : jsonParse g = some (Json.arr a)) :
    parse_quiz_from_json notes_text key = PyOutcome.ok (Json.arr a) := by
  unfold parse_quiz_from_json parse_quiz_from_json_core
  rw [if_pos hsafe]
  simp only [hcap, hjson]

/-- Claim C5, witness at a concrete valid JSON array fence. -/
theorem claimC5witness :
    quizKeySafe ("MCQ Quiz".toList) = true ∧
    quizCapture? ("## MCQ Quiz\n```json\n[1, 2]\n```".toList) ("MCQ Quiz".toList) =
      some ("[1, 2]".toList) ∧
    jsonParse ("[1, 2]".toList) = some (Json.arr [Json.num 1, Json.num 2]) ∧
    parse_quiz_from_json "## MCQ Quiz\n```json\n[1, 2]\n```" "MCQ Quiz" =
      PyOutcome.ok (Json.arr [Json.num 1, Json.num 2]) :=
  ⟨by decide, by decide, by rfl,
   claimC5 "## MCQ Quiz\n```json\n[1, 2]\n```" "MCQ Quiz" ("[1, 2]".toList)
     [Json.num 1, Json.num 2] (by decide) (by decide) (by rfl)⟩

/-- Claim C6: `parse_quiz_from_json` matches the label
case-insensitively (the pattern is compiled with `re.IGNORECASE`,
`processing.py` line 124): for labels over letters, digits and spaces,
any two case variants of the same label yield identical results on every
document; the witness shows the document header `## mcq quiz` matched by
the label `MCQ Quiz`. -/
theorem claimC6 (notes_text k1 k2 : String)
    (h1 : quizKeySafe k1.toList = true) (h2 : quizKeySafe k2.toList = true)
    (hl : k1.toList.map Char.toLower = k2.toList.map Char.toLower) :
    parse_quiz_from_json notes_text k1 = parse_quiz_from_json notes_text k2 := by
  unfold parse_quiz_from_json parse_quiz_from_json_core
  rw [if_pos h1, if_pos h2, quizCapture?_ci_congr hl notes_text.toList]

/-- Claim C6, witness: `## mcq quiz` is matched by the label
`MCQ Quiz`. -/
theorem claimC6witness :
    quizKeySafe ("MCQ Quiz".toList) = true ∧
    quizKeySafe ("mcq quiz".toList) = true ∧
    ("MCQ Quiz".toList).map Char.toLower = ("mcq quiz".toList).map Char.toLower ∧
    parse_quiz_from_json "## mcq quiz\n```json\n[1]\n```" "MCQ Quiz" =
      parse_quiz_from_json "## mcq quiz\n```json\n[1]\n```" "mcq quiz" ∧
    parse_quiz_from_json "## mcq quiz\n```json\n[1]\n```" "mcq quiz" =
      PyOutcome.ok (Json.arr [Json.num 1]) :=
  ⟨by decide, by decide, by decide,
   claimC6 "## mcq quiz\n```json\n[1]\n```" "MCQ Quiz" "mcq quiz"
     (by decide) (by decide) (by decide),
   by rfl⟩

/-- Claim C9: the extractors are deterministic and pure: with the
`logging` state made explicit, two runs of `parse_quiz_from_json` on the
same document and label return equal results whatever the prior log
state, and likewise for `parse_graphviz`, which performs no I/O at
all. -/
theorem claimC9 (notes_text key : String) (log1 log2 : List String) :
    (parse_quiz_from_json_run notes_text key log1).1 =
      (parse_quiz_from_json_run notes_text key log2).1 ∧
    (parse_graphviz_run notes_text log1).1 = (parse_graphviz_run notes_text log2).1 := by
  refine ⟨?_, rfl⟩
  unfold parse_quiz_from_json_run
  split
  · split
    · rfl
    · split <;> rfl
  · split <;> rfl

/-- Claim C1, amended: when `parse_quiz_from_json` finds a matching
header, the fence whose content it decodes is the first
(case-insensitive) occurrence of `` ```json `` anywhere after that
header in the whole document — the search is not bounded by the next
`##` header, because the gap `[\s\S]*?` in the pattern crosses header
lines (the amendment forced by `claimC1cex`).  Formally: a successful
capture comes from a matched header ending at `j` and the minimum
element `q` of all `` ```json `` occurrences at or after `j`, with the
fence tail matching at `q`. -/
theorem claimC1 (notes_text key : String) (g : List Char)
    (h : quizCapture? notes_text.toList key.toList = some g) :
    ∃ i j q, quizHeaderEnd? notes_text.toList key.toList i = some j ∧
      (occList true notes_text.toList jsonFence j).head? = some q ∧
      (∀ r, r ∈ occList true notes_text.toList jsonFence j → q ≤ r) ∧
      tailMatch notes_text.toList (q + jsonFence.length) = some g := by
  unfold quizCapture? at h
  obtain ⟨i, -, h⟩ := List.exists_of_findSome?_eq_some h
  rw [Option.bind_eq_some] at h
  obtain ⟨j, hj, h⟩ := h
  rw [Option.map_eq_some'] at h
  obtain ⟨⟨q, g'⟩, hqg, heq⟩ := h
  have hg : g' = g := heq
  subst hg
  have hfs := fenceSearch_first hqg
  exact ⟨i, j, q, hj, hfs.1,
    fun r hr => head?_min (occList_pairwise _ _ _ _) hfs.1 hr, hfs.2⟩

/-- Claim C1, counterexample: with label `A` on a document whose `## A`
section contains no fence, the json fence of the later `## B` section
(an intervening `##` header stands at position 7, between the header
end 4 and the fence at 12) is attributed to `A` and decoded — the claim
says it never is. -/
theorem claimC1cex :
    parse_quiz_from_json "## A\nx\n## B\n```json\n[1, 2]\n```" "A" =
      PyOutcome.ok (Json.arr [Json.num 1, Json.num 2]) ∧
    quizHeaderEnd? ("## A\nx\n## B\n```json\n[1, 2]\n```".toList) ("A".toList) 0 = some 4 ∧
    matchesAt false ("## A\nx\n## B\n```json\n[1, 2]\n```".toList) hh 7 = true ∧
    (occList true ("## A\nx\n## B\n```json\n[1, 2]\n```".toList) jsonFence 4).head? = some 12 ∧
    Json.arr [Json.num 1, Json.num 2] ≠ Json.arr [] :=
  ⟨by rfl, by decide, by decide, by decide, by simp⟩

/-- Claim C1, witness at a concrete input. -/
theorem claimC1witness :
    quizCapture? ("## A\nx\n## B\n```json\n[1, 2]\n```".toList) ("A".toList) =
      some ("[1, 2]".toList) ∧
    (∃ i j q, quizHeaderEnd? ("## A\nx\n## B\n```json\n[1, 2]\n```".toList) ("A".toList) i = some j ∧
      (occList true ("## A\nx\n## B\n```json\n[1, 2]\n```".toList) jsonFence j).head? = some q ∧
      (∀ r, r ∈ occList true ("## A\nx\n## B\n```json\n[1, 2]\n```".toList) jsonFence j → q ≤ r) ∧
      tailMatch ("## A\nx\n## B\n```json\n[1, 2]\n```".toList) (q + jsonFence.length) =
        some ("[1, 2]".toList)) :=
  ⟨by decide,
   claimC1 "## A\nx\n## B\n```json\n[1, 2]\n```" "A" ("[1, 2]".toList) (by decide)⟩

/-- Claim C7, amended: `parse_graphviz` trims the first dot fence's
content and wraps it as `digraph G \x7b ... \x7d` when the trimmed
content does not begin with `digraph`; the styling string then replaces
the first opening brace of the normalized content — inserted exactly
once, immediately after that brace — whenever the normalized content
contains a brace (always the case after wrapping); but when the content
begins with `digraph` and contains no brace at all, the content is
returned unchanged, with no styling inserted (the amendment forced by
`claimC7cex`). -/
theorem claimC7 (notes_text : String) (q : Nat) (g : List Char)
    (hf : fenceSearch false notes_text.toList dotFence 0 = some (q, g)) :
    (∀ P S, dotNormalize g = P ++ lbrace :: S → lbrace ∉ P →
      parse_graphviz notes_text =
        some (String.mk (P ++ lbrace :: ' ' :: styling ++ S))) ∧
    (lbrace ∉ dotNormalize g →
      digraphKw.isPrefixOf (pyStrip (pyStrip g)) = true ∧
      parse_graphviz notes_text = some (String.mk (pyStrip g))) := by
  constructor
  · intro P S hPS hP
    unfold parse_graphviz parse_graphviz_core
    rw [hf]
    show (some (replaceFirst (dotNormalize g) lbrace (lbrace :: ' ' :: styling))).map
        (fun l => String.mk l) = _
    rw [hPS, replaceFirst_append hP]
    simp [List.append_assoc]
  · intro hnb
    have hpre : digraphKw.isPrefixOf (pyStrip (pyStrip g)) = true := by
      by_contra hc
      have hw : dotNormalize g = wrapDigraph (pyStrip g) := by
        unfold dotNormalize
        rw [if_neg hc]
      exact hnb (hw ▸ lbrace_mem_wrapDigraph (pyStrip g))
    have hdn : dotNormalize g = pyStrip g := by
      unfold dotNormalize
      rw [if_pos hpre]
    refine ⟨hpre, ?_⟩
    unfold parse_graphviz parse_graphviz_core
    rw [hf]
    show (some (replaceFirst (dotNormalize g) lbrace (lbrace :: ' ' :: styling))).map
        (fun l => String.mk l) = _
    rw [hdn, replaceFirst_of_not_mem (hdn ▸ hnb)]
    rfl

/-- Claim C7, counterexample: a dot fence whose trimmed content is the
bare keyword `digraph` is returned without any styling (the content
starts with `digraph`, so it is not wrapped, and it contains no opening
brace, so `replace` fires zero times) — the claim says the styling is
inserted exactly once for every document containing a dot fence. -/
theorem claimC7cex :
    parse_graphviz "```dot\ndigraph\n```" = some "digraph" ∧
    ¬ styling <:+: ("digraph".toList) :=
  ⟨by rfl, fun h => absurd h.length_le (by decide)⟩

/-- Claim C7, witness at a concrete input: `A -> B` is wrapped and the
styling lands right after the wrapping brace. -/
theorem claimC7witness :
    fenceSearch false ("```dot\nA -> B\n```".toList) dotFence 0 =
      some (0, "A -> B".toList) ∧
    dotNormalize ("A -> B".toList) =
      "digraph G ".toList ++ lbrace :: " A -> B \x7d".toList ∧
    lbrace ∉ "digraph G ".toList ∧
    parse_graphviz "```dot\nA -> B\n```" =
      some (String.mk ("digraph G ".toList ++ lbrace :: ' ' :: styling ++
        " A -> B \x7d".toList)) :=
  ⟨by decide, by decide, by decide,
   (claimC7 "```dot\nA -> B\n```" 0 ("A -> B".toList) (by decide)).1
     ("digraph G ".toList) (" A -> B \x7d".toList) (by decide) (by decide)⟩

/-- Claim C8 describes the intended span capture; the code diverges from
it.  On the claim's own example document the greedy `\s*` after
`Summary` consumes the newline that ends the header line, the following
`.*?\n` then consumes the entire first prose line, and the capture group
stops at the lookahead immediately — so group 2 is empty, the emptiness
test fires, and both extractor variants return nothing instead of
`The topic is X.`. -/
theorem claimC8bug :
    summaryMatch? ("## Summary\nThe topic is X.\n## Quiz\n...".toList) = some [] ∧
    summary_span_core ("## Summary\nThe topic is X.\n## Quiz\n...".toList) = none ∧
    get_topic_from_summary "## Summary\nThe topic is X.\n## Quiz\n..." = none :=
  ⟨by rfl, by rfl, by rfl⟩

theorem mem_nlPositions {doc : List Char} {lo m : Nat} :
    m ∈ nlPositions doc lo ↔
      m < doc.length ∧ lo ≤ m ∧ doc.get? m = some '\n' := by
  simp [nlPositions, List.mem_filter, List.mem_range, and_assoc]

/-- Claim C10: for every document in which a summary header is present
but no `##` occurs anywhere after a line break that follows a summary
header, the span capture fails — the capture group needs the `(?=##)`
lookahead to terminate it — so the extractor returns nothing, even when
non-empty prose follows the header. -/
theorem claimC10 (notes_text : String)
    (_hpres : ∃ i j, j ∈ summaryHeaderEnds notes_text.toList i)
    (hnone : ∀ i, i < notes_text.toList.length →
      ∀ j ∈ summaryHeaderEnds notes_text.toList i,
      ∀ m, m < notes_text.toList.length → j ≤ m →
        notes_text.toList.get? m = some '\n' →
      ∀ t, t < notes_text.toList.length → m + 1 ≤ t →
        matchesAt false notes_text.toList hh t = false) :
    summary_span_core notes_text.toList = none ∧
    get_topic_from_summary notes_text = none := by
  have hm : summaryMatch? notes_text.toList = none := by
    unfold summaryMatch?
    rw [List.findSome?_eq_none_iff]
    intro i hi
    rw [List.mem_range] at hi
    rw [List.findSome?_eq_none_iff]
    intro j hj
    cases hst : summaryTail notes_text.toList j with
    | none => rfl
    | some g =>
      exfalso
      unfold summaryTail at hst
      obtain ⟨a2, -, hst⟩ := List.exists_of_findSome?_eq_some hst
      obtain ⟨m, hmmem, hst⟩ := List.exists_of_findSome?_eq_some hst
      rw [Option.map_eq_some'] at hst
      obtain ⟨t, hthead, -⟩ := hst
      have htmem := head?_mem hthead
      rw [mem_occList] at htmem
      rw [mem_nlPositions] at hmmem
      have hjm : j ≤ m := Nat.le_trans (Nat.le_add_right j a2) hmmem.2.1
      have hfalse := hnone i hi j hj m hmmem.1 hjm hmmem.2.2 t htmem.1 htmem.2.1
      rw [htmem.2.2] at hfalse
      cases hfalse
  refine ⟨?_, ?_⟩
  · unfold summary_span_core
    rw [hm]
  · unfold get_topic_from_summary summary_span_core
    rw [hm]
    rfl

set_option synthInstance.maxSize 1024 in
/-- Claim C10, witness: a document whose summary is the last section. -/
theorem claimC10witness :
    summary_span_core ("## Summary\nHi there.".toList) = none ∧
    get_topic_from_summary "## Summary\nHi there." = none :=
  claimC10 "## Summary\nHi there." ⟨0, 10, by decide⟩ (by decide)

end EduEase
